import Mathlib

set_option maxRecDepth 100000

/-!
Verification of the multi-provider LLM invocation layer and the
best-effort JSON extractor of the advisory/consultancy backend.

The development shallow-embeds the two source modules that the claims
concern:

* `src/main.py` — `llm_generate` (the route-level generate helper) and
  `parse_json_from_llm` (the brace-scanning JSON extractor);
* `src/llm_providers.py` — `call_gemini`, `call_groq`, `call_ollama`
  and the router `call_llm`.

JSON values from the Python `json` module are modelled by the inductive
type `J` below; numbers are restricted to the integer fragment (the
report pipeline never round-trips floats, and floating point is outside
the embedding).  `json.dumps` is modelled by `strVal` (with
`ensure_ascii` disabled: characters at and above 0x7f are emitted raw;
`json.loads` accepts both spellings, so every statement proved here is
insensitive to this choice) and `json.loads` by `parseJson`.  Network
traffic is made explicit: each provider call takes a `NetResult`
describing the transport outcome and returns the outbound request it
issued (`none` when it short-circuited before any network activity)
together with its result string.
-/

-- ------------------------------------------------------------------
-- JSON values.  Arrays and objects use bespoke mutual list types so
-- that recursion over values is structural (hence kernel-evaluable).
-- ------------------------------------------------------------------

mutual

inductive J where
  | null : J
  | bool : Bool → J
  | num : Int → J
  | str : List Char → J
  | arr : JList → J
  | obj : JFields → J
deriving DecidableEq

inductive JList where
  | nil : JList
  | cons : J → JList → JList
deriving DecidableEq

inductive JFields where
  | nil : JFields
  | cons : List Char → J → JFields → JFields
deriving DecidableEq

end

/-- Convert an ordinary list of values into a `JList`. -/
def JList.ofList : List J → JList
  | [] => .nil
  | v :: vs => .cons v (JList.ofList vs)

/-- Convert a `JList` back to an ordinary list. -/
def JList.toList : JList → List J
  | .nil => []
  | .cons v vs => v :: JList.toList vs

/-- Convert a list of key/value pairs into `JFields`. -/
def JFields.ofList : List (List Char × J) → JFields
  | [] => .nil
  | (k, v) :: fs => .cons k v (JFields.ofList fs)

/-- The left brace character, written via its code point. -/
def lbrace : Char := '\x7b'

/-- The right brace character, written via its code point. -/
def rbrace : Char := '\x7d'

/-- Python truthiness of a JSON value (`bool(x)` for the decoded value). -/
def pyTruthy : J → Bool
  | .null => false
  | .bool b => b
  | .num n => n != 0
  | .str s => !s.isEmpty
  | .arr .nil => false
  | .arr (.cons _ _) => true
  | .obj .nil => false
  | .obj (.cons _ _ _) => true

/-- Python `x or d` on decoded JSON values. -/
def pyOr (v d : J) : J := if pyTruthy v then v else d

/-- Dictionary lookup.  `json.loads` builds Python dicts in which a
duplicated key keeps its last occurrence, so the lookup prefers the
rightmost binding. -/
def lookupF : JFields → List Char → Option J
  | .nil, _ => none
  | .cons k v tl, key =>
    match lookupF tl key with
    | some r => some r
    | none => if k = key then some v else none

/-- `d.get(key)` — `None` when `key` is absent, raising (modelled by
`none`) when the receiver is not a dict. -/
def jgetNull (v : J) (key : List Char) : Option J :=
  match v with
  | .obj fs => some ((lookupF fs key).getD J.null)
  | _ => none

/-- `d.get(key, default)` — raising (`none`) when the receiver is not a
dict. -/
def jgetD (v : J) (key : List Char) (d : J) : Option J :=
  match v with
  | .obj fs => some ((lookupF fs key).getD d)
  | _ => none

/-- `d[key]` subscription: raises (`none`) on a non-dict receiver or a
missing key. -/
def jIndexKey (v : J) (key : List Char) : Option J :=
  match v with
  | .obj fs => lookupF fs key
  | _ => none

/-- `x[0]` subscription: the head of a non-empty list, the first
character of a non-empty string, raising (`none`) otherwise. -/
def index0 : J → Option J
  | .arr (.cons v _) => some v
  | .str (c :: _) => some (.str [c])
  | _ => none

/-- `for p in x`: iterating a list yields its elements, a string its
one-character substrings, a dict its keys; other values raise. -/
def iterElems : J → Option (List J)
  | .arr xs => some xs.toList
  | .str s => some (s.map fun c => J.str [c])
  | .obj fs => some (iterKeys fs)
  | _ => none
where
  iterKeys : JFields → List J
    | .nil => []
    | .cons k _ tl => J.str k :: iterKeys tl

-- ------------------------------------------------------------------
-- Serialization (json.dumps with the default separators).
-- ------------------------------------------------------------------

/-- Hexadecimal digit for a value below 16 (lowercase, as emitted by
`json.dumps`). -/
def hexDigit (n : Nat) : Char :=
  if n < 10 then Char.ofNat (48 + n) else Char.ofNat (87 + n)

/-- Escape one character of a string literal the way `json.dumps` does:
the two-character escapes for quote, backslash and the named control
characters, `\u00XX` for the remaining control characters, and the
character itself otherwise. -/
def escapeChar (c : Char) : List Char :=
  if c = '"' then ['\\', '"']
  else if c = '\\' then ['\\', '\\']
  else if c = '\n' then ['\\', 'n']
  else if c = '\t' then ['\\', 't']
  else if c = '\r' then ['\\', 'r']
  else if c = '\x08' then ['\\', 'b']
  else if c = '\x0c' then ['\\', 'f']
  else if c.toNat < 32 then
    ['\\', 'u', '0', '0', hexDigit (c.toNat / 16), hexDigit (c.toNat % 16)]
  else [c]

/-- Escape a whole string body. -/
def escapeStr : List Char → List Char
  | [] => []
  | c :: cs => escapeChar c ++ escapeStr cs

/-- A serialized string literal, quotes included. -/
def strLit (s : List Char) : List Char := '"' :: escapeStr s ++ ['"']

/-- Decimal digits of a natural number; the first argument is fuel and
any `fuel > n` is enough. -/
def natDigits : Nat → Nat → List Char
  | 0, _ => []
  | fuel + 1, n =>
    if n < 10 then [Nat.digitChar n]
    else natDigits fuel (n / 10) ++ [Nat.digitChar (n % 10)]

/-- Decimal representation of a natural number. -/
def natStr (n : Nat) : List Char := natDigits (n + 1) n

/-- Decimal representation of an integer, as `str(int)` prints it. -/
def intStr (n : Int) : List Char :=
  if n < 0 then '-' :: natStr (-n).toNat else natStr n.toNat

/-- The separator emitted after an array element when more elements
follow. -/
def sepElems : JList → List Char
  | .nil => []
  | .cons _ _ => [',', ' ']

/-- The separator emitted after an object member when more members
follow. -/
def sepFields : JFields → List Char
  | .nil => []
  | .cons _ _ _ => [',', ' ']

mutual

/-- `json.dumps` on a value (default separators `", "` and `": "`). -/
def strVal : J → List Char
  | .null => "null".data
  | .bool b => if b then "true".data else "false".data
  | .num n => intStr n
  | .str s => strLit s
  | .arr xs => '[' :: strElems xs ++ [']']
  | .obj fs => lbrace :: strFields fs ++ [rbrace]

/-- Comma-separated serialization of array elements. -/
def strElems : JList → List Char
  | .nil => []
  | .cons v tl => strVal v ++ sepElems tl ++ strElems tl

/-- Comma-separated serialization of object members. -/
def strFields : JFields → List Char
  | .nil => []
  | .cons k v tl => strLit k ++ ':' :: ' ' :: strVal v ++ sepFields tl ++ strFields tl

end

/-- `json.dumps` as a `String`-valued operation. -/
def jsonStringify (v : J) : String := String.mk (strVal v)

-- ------------------------------------------------------------------
-- Parsing (the integer fragment of json.loads: objects, arrays,
-- strings with escapes, integer numbers, literals, whitespace).
-- ------------------------------------------------------------------

/-- JSON insignificant whitespace. -/
def isJWs (c : Char) : Bool :=
  c = ' ' || c = '\t' || c = '\n' || c = '\r'

/-- Drop leading JSON whitespace. -/
def skipWs (cs : List Char) : List Char := cs.dropWhile isJWs

/-- Value of one hexadecimal digit. -/
def hexVal (c : Char) : Option Nat :=
  if '0' ≤ c ∧ c ≤ '9' then some (c.toNat - 48)
  else if 'a' ≤ c ∧ c ≤ 'f' then some (c.toNat - 87)
  else if 'A' ≤ c ∧ c ≤ 'F' then some (c.toNat - 55)
  else none

/-- The character with a given code point, when that code point is a
valid scalar value. -/
def charFromNat (n : Nat) : Option Char :=
  if n.isValidChar then some (Char.ofNat n) else none

/-- Decode one two-character escape. -/
def simpleUnescape (c : Char) : Option Char :=
  if c = '"' then some '"'
  else if c = '\\' then some '\\'
  else if c = '/' then some '/'
  else if c = 'n' then some '\n'
  else if c = 't' then some '\t'
  else if c = 'r' then some '\r'
  else if c = 'b' then some '\x08'
  else if c = 'f' then some '\x0c'
  else none

/-- Parse the body of a string literal (the opening quote already
consumed), returning the decoded characters and the remainder after the
closing quote.  Unescaped control characters are rejected, as in strict
`json.loads`. -/
def parseStrBody : List Char → Option (List Char × List Char)
  | [] => none
  | c :: rest =>
    if c = '"' then some ([], rest)
    else if c = '\\' then
      match rest with
      | 'u' :: h1 :: h2 :: h3 :: h4 :: rest2 =>
        match hexVal h1, hexVal h2, hexVal h3, hexVal h4 with
        | some a, some b, some c4, some d =>
          match charFromNat (((a * 16 + b) * 16 + c4) * 16 + d) with
          | some ch => (parseStrBody rest2).map fun p => (ch :: p.1, p.2)
          | none => none
        | _, _, _, _ => none
      | e :: rest2 =>
        match simpleUnescape e with
        | some ch => (parseStrBody rest2).map fun p => (ch :: p.1, p.2)
        | none => none
      | [] => none
    else if c.toNat < 32 then none
    else (parseStrBody rest).map fun p => (c :: p.1, p.2)

/-- Numeric value of a digit string. -/
def digitsVal (ds : List Char) : Nat :=
  ds.foldl (fun a c => 10 * a + (c.toNat - 48)) 0

/-- Parse a maximal non-empty run of decimal digits. -/
def parseNatDigits (cs : List Char) : Option (Nat × List Char) :=
  match cs.takeWhile Char.isDigit with
  | [] => none
  | ds => some (digitsVal ds, cs.dropWhile Char.isDigit)

/-- Parse an (optionally negated) integer number. -/
def parseNum (cs : List Char) : Option (J × List Char) :=
  match cs with
  | [] => none
  | c :: rest =>
    if c = '-' then
      (parseNatDigits rest).map fun p => (J.num (-(p.1 : Int)), p.2)
    else
      (parseNatDigits cs).map fun p => (J.num (p.1 : Int), p.2)

mutual

/-- Parse one JSON value after skipping leading whitespace.  The first
argument is fuel; `parseJson` supplies enough for any input. -/
def parseVal : Nat → List Char → Option (J × List Char)
  | 0, _ => none
  | fuel + 1, cs0 =>
    match skipWs cs0 with
    | [] => none
    | c :: rest =>
      if c = lbrace then
        match skipWs rest with
        | [] => none
        | c2 :: rest2 =>
          if c2 = rbrace then some (.obj .nil, rest2)
          else parseFields fuel (c2 :: rest2)
      else if c = '[' then
        match skipWs rest with
        | [] => none
        | c2 :: rest2 =>
          if c2 = ']' then some (.arr .nil, rest2)
          else parseElems fuel (c2 :: rest2)
      else if c = '"' then
        (parseStrBody rest).map fun p => (J.str p.1, p.2)
      else if c = 't' then
        match rest with
        | 'r' :: 'u' :: 'e' :: r => some (.bool true, r)
        | _ => none
      else if c = 'f' then
        match rest with
        | 'a' :: 'l' :: 's' :: 'e' :: r => some (.bool false, r)
        | _ => none
      else if c = 'n' then
        match rest with
        | 'u' :: 'l' :: 'l' :: r => some (.null, r)
        | _ => none
      else if c = '-' || c.isDigit then parseNum (c :: rest)
      else none

/-- Parse the elements of a non-empty array (the opening bracket
consumed, at least one element present). -/
def parseElems : Nat → List Char → Option (J × List Char)
  | 0, _ => none
  | fuel + 1, cs =>
    match parseVal fuel cs with
    | none => none
    | some (v, r) =>
      match skipWs r with
      | ',' :: r2 =>
        match parseElems fuel r2 with
        | some (J.arr tl, r3) => some (.arr (.cons v tl), r3)
        | _ => none
      | ']' :: r2 => some (.arr (.cons v .nil), r2)
      | _ => none

/-- Parse the members of a non-empty object (the opening brace
consumed, at least one member present). -/
def parseFields : Nat → List Char → Option (J × List Char)
  | 0, _ => none
  | fuel + 1, cs =>
    match skipWs cs with
    | '"' :: r =>
      match parseStrBody r with
      | none => none
      | some (k, r2) =>
        match skipWs r2 with
        | ':' :: r3 =>
          match parseVal fuel r3 with
          | none => none
          | some (v, r4) =>
            match skipWs r4 with
            | ',' :: r5 =>
              match parseFields fuel r5 with
              | some (J.obj tl, r6) => some (.obj (.cons k v tl), r6)
              | _ => none
            | c5 :: r5 => if c5 = rbrace then some (.obj (.cons k v .nil), r5) else none
            | [] => none
        | _ => none
    | _ => none

end

/-- `json.loads`: parse one value and require only whitespace after it. -/
def parseJson (cs : List Char) : Option J :=
  match parseVal (2 * cs.length + 2) cs with
  | some (v, r) => if skipWs r = [] then some v else none
  | none => none

-- ------------------------------------------------------------------
-- The JSON extractor parse_json_from_llm (src/main.py, lines 114-129).
-- ------------------------------------------------------------------

/-- Index of the first character satisfying a predicate (`str.find`). -/
def firstIdx (p : Char → Bool) : List Char → Option Nat
  | [] => none
  | c :: cs => if p c then some 0 else (firstIdx p cs).map (· + 1)

/-- Contribution of one character to the running brace count. -/
def braceDelta (c : Char) : Int :=
  if c = lbrace then 1 else if c = rbrace then -1 else 0

/-- The scanning loop of `parse_json_from_llm`: starting from a given
brace count, return the length of the shortest prefix after which the
count is zero. -/
def scanBalanced : List Char → Int → Option Nat
  | [], _ => none
  | c :: cs, d =>
    let d' := d + braceDelta c
    if d' = 0 then some 1 else (scanBalanced cs d').map (· + 1)

/-- The fallback result `{"raw": text}`. -/
def rawObj (text : List Char) : J := .obj (.cons "raw".data (.str text) .nil)

/-- `parse_json_from_llm` from `src/main.py`: locate the first left
brace, scan for the position at which the running brace count returns
to zero, and parse the delimited candidate; any failure yields
`{"raw": text}`. -/
def parse_json_from_llm (text : List Char) : J :=
  match firstIdx (fun c => c = lbrace) text with
  | none => rawObj text
  | some s =>
    let t := text.drop s
    match scanBalanced t 0 with
    | none => rawObj text
    | some n =>
      match parseJson (t.take n) with
      | none => rawObj text
      | some v => v

/-- Sum of the brace contributions of a character list. -/
def braceSum (cs : List Char) : Int := (cs.map braceDelta).sum

/-- The extraction algorithm exactly as the specification words it:
scan for the first left brace (none → `{"raw": text}`); the end of the
candidate is the first position at which the running brace-depth count
returns to zero (never → `{"raw": text}`); parse the candidate
substring, braces included (failure → `{"raw": text}`). -/
def extractJsonSpec (text : List Char) : J :=
  match text.findIdx? (· == lbrace) with
  | none => rawObj text
  | some s =>
    let t := text.drop s
    match (List.range t.length).find? (fun i => braceSum (t.take (i + 1)) == 0) with
    | none => rawObj text
    | some i =>
      match parseJson (t.take (i + 1)) with
      | none => rawObj text
      | some v => v

-- ------------------------------------------------------------------
-- Provider layer (src/llm_providers.py and src/main.py).
-- ------------------------------------------------------------------

/-- Effective configuration of `src/llm_providers.py` (the values of
`src/config.py`, environment-sourced at import time). -/
structure ProvidersConfig where
  gemini_api_key : String
  gemini_model : String
  groq_api_key : String
  groq_model : String
  ollama_host : String
  ollama_model : String

/-- Effective configuration of `src/main.py` (module-level constants,
environment-sourced at import time). -/
structure MainConfig where
  default_provider : String
  gemini_api_key : String
  gemini_model : String
  groq_api_key : String
  groq_model : String
  ollama_host : String
  ollama_model : String

/-- Outcome of the single outbound network round-trip: either the
transport layer raised (connection failure, timeout, DNS, …) with a
message, or a response arrived with a status code and a body. -/
inductive NetResult where
  | noResponse (err : String)
  | response (status : Nat) (body : String)

/-- Shape of the outbound request each adapter builds.  Temperatures
are exact rationals standing for the float literals of the source. -/
inductive Request where
  | gemini (url : String) (keyParam : String) (promptText : String)
      (temperature : ℚ) (maxOutputTokens : Nat)
  | groq (url : String) (bearerKey : String) (model : String)
      (messages : List (String × String)) (temperature : ℚ) (max_tokens : Option Nat)
  | ollama (url : String) (model : String) (prompt : String)
      (stream : Bool) (optionsTemperature : Option ℚ)
deriving DecidableEq

/-- The `**kwargs` bag accepted by the router: recognized keys with
`None` standing for absence. -/
structure KwArgs where
  temperature : Option ℚ
  max_tokens : Option Nat

/-- The float literal `0.3` (default temperature in the router), as an
exact rational in normal form. -/
def temp03 : ℚ := ⟨3, 10, by decide, by decide⟩

/-- The float literal `0.4` (temperature used by `llm_generate`), as an
exact rational in normal form. -/
def temp04 : ℚ := ⟨2, 5, by decide, by decide⟩

/-- Python whitespace as stripped by `str.strip()` (ASCII fragment). -/
def isPyWs (c : Char) : Bool :=
  c = ' ' || c = '\t' || c = '\n' || c = '\r' || c = '\x0b' || c = '\x0c'

/-- `str.strip()`. -/
def pyStrip (s : List Char) : List Char :=
  ((s.dropWhile isPyWs).reverse.dropWhile isPyWs).reverse

/-- `s.lower().strip()` (ASCII lowering, as relevant to the provider
names). -/
def pyLowerStrip (s : String) : String :=
  String.mk (pyStrip (s.data.map Char.toLower))

/-- Stands for `str(e)` of an exception whose message text the
embedding does not track (JSON decode errors, KeyError/IndexError/
TypeError during response-shape access). -/
def excDetail : String := "exception"

/-- Stands for `str(e)` of a `requests.HTTPError` raised by
`raise_for_status`; only its dependence on the status is modelled. -/
def httpErrStr (st : Nat) : String :=
  toString st ++ (if st < 500 then " Client Error" else " Server Error")

/-- `json.dumps(data)[:2000]`. -/
def dump2000 (data : J) : String := String.mk ((strVal data).take 2000)

/-- The collection loop of `call_gemini`: keep `p["text"]` for dict
parts that have a `"text"` key and string parts as they are. -/
def collectTexts : List J → List J
  | [] => []
  | p :: ps =>
    match p with
    | .obj fs =>
      match lookupF fs "text".data with
      | some v => v :: collectTexts ps
      | none => collectTexts ps
    | .str s => J.str s :: collectTexts ps
    | _ => collectTexts ps

/-- `"".flatten(texts)`: raises (`none`) unless every element is a
string. -/
def joinStrs : List J → Option (List Char)
  | [] => some []
  | .str s :: ts => (joinStrs ts).map (s ++ ·)
  | _ :: _ => none

/-- Lines 34–42 of `src/llm_providers.py`: pull the text fragments out
of the first candidate and join them; `none` models a raised
exception. -/
def geminiExtract (data : J) : Option (List Char) := do
  let cands ← jgetNull data "candidates".data
  let cand ← index0 (pyOr cands (J.arr (.cons (J.obj .nil) .nil)))
  let content ← jgetNull cand "content".data
  let partsVal ← jgetNull (pyOr content (J.obj .nil)) "parts".data
  let ps ← iterElems (pyOr partsVal (J.arr .nil))
  joinStrs (collectTexts ps)

/-- `call_gemini` from `src/llm_providers.py`.  The first component is
the outbound request (`none` when the call short-circuits before any
network activity), the second the returned string. -/
def call_gemini (cfg : ProvidersConfig) (prompt : String) (max_tokens : Nat)
    (temperature : ℚ) (net : NetResult) : Option Request × String :=
  if cfg.gemini_api_key = "" then (none, "[ERROR] GEMINI_API_KEY not set.")
  else
    let req := Request.gemini
      ("https://generativelanguage.googleapis.com/v1beta/models/" ++ cfg.gemini_model ++ ":generateContent")
      cfg.gemini_api_key prompt temperature max_tokens
    (some req,
      match net with
      | .noResponse e => "[ERROR] Gemini failure: " ++ e
      | .response st body =>
        if 400 ≤ st ∧ st < 600 then
          "[ERROR] Gemini HTTP " ++ toString st ++ ": " ++ body
        else
          match parseJson body.data with
          | none => "[ERROR] Gemini failure: " ++ excDetail
          | some data =>
            match geminiExtract data with
            | none => "[ERROR] Gemini failure: " ++ excDetail
            | some txt =>
              let t := pyStrip txt
              if t = [] then dump2000 data else String.mk t)

/-- `data["choices"][0]["message"]["content"].strip()` with `none` for
any raised lookup/attribute error. -/
def groqExtract (data : J) : Option (List Char) := do
  let choices ← jIndexKey data "choices".data
  let c0 ← index0 choices
  let msg ← jIndexKey c0 "message".data
  let content ← jIndexKey msg "content".data
  match content with
  | .str s => some (pyStrip s)
  | _ => none

/-- `call_groq` from `src/llm_providers.py`. -/
def call_groq (cfg : ProvidersConfig) (prompt : String) (temperature : ℚ)
    (net : NetResult) : Option Request × String :=
  if cfg.groq_api_key = "" then (none, "[ERROR] GROQ_API_KEY not set.")
  else
    let req := Request.groq "https://api.groq.com/openai/v1/chat/completions"
      cfg.groq_api_key cfg.groq_model [("user", prompt)] temperature none
    (some req,
      match net with
      | .noResponse e => "[ERROR] Groq failure: " ++ e
      | .response st body =>
        if 400 ≤ st ∧ st < 600 then
          "[ERROR] Groq HTTP " ++ toString st ++ ": " ++ body
        else
          match parseJson body.data with
          | none => "[ERROR] Groq failure: " ++ excDetail
          | some data =>
            match groqExtract data with
            | none => "[ERROR] Groq failure: " ++ excDetail
            | some s => String.mk s)

/-- `(data.get("response") or "").strip()` with `none` for a raised
attribute error. -/
def ollamaExtract (data : J) : Option (List Char) := do
  let rv ← jgetNull data "response".data
  match pyOr rv (J.str []) with
  | .str s => some (pyStrip s)
  | _ => none

/-- `call_ollama` from `src/llm_providers.py`. -/
def call_ollama (cfg : ProvidersConfig) (prompt : String) (net : NetResult) :
    Option Request × String :=
  let req := Request.ollama (cfg.ollama_host ++ "/api/generate")
    cfg.ollama_model prompt false none
  (some req,
    match net with
    | .noResponse e => "[ERROR] Ollama failure: " ++ e
    | .response st body =>
      if 400 ≤ st ∧ st < 600 then
        "[ERROR] Ollama HTTP " ++ toString st ++ ": " ++ body
      else
        match parseJson body.data with
        | none => "[ERROR] Ollama failure: " ++ excDetail
        | some data =>
          match ollamaExtract data with
          | none => "[ERROR] Ollama failure: " ++ excDetail
          | some t => if t = [] then dump2000 data else String.mk t)

/-- The router `call_llm` from `src/llm_providers.py`: normalize the
provider name by lower-casing and stripping, dispatch on it, and fall
through to the Gemini adapter for anything unrecognized. -/
def call_llm (cfg : ProvidersConfig) (llm : Option String) (prompt : String)
    (kw : KwArgs) (net : NetResult) : Option Request × String :=
  let l := pyLowerStrip (llm.getD "")
  if l = "groq" then call_groq cfg prompt (kw.temperature.getD temp03) net
  else if l = "ollama" then call_ollama cfg prompt net
  else call_gemini cfg prompt (kw.max_tokens.getD 1024) (kw.temperature.getD temp03) net

/-- Line 97 of `src/main.py`:
`data.get("candidates", [` `{}` `])[0].get("content", {}).get("parts", ...)[0].get("text", "")`
with `none` for a raised error. -/
def mainGeminiExtract (data : J) : Option J := do
  let cands ← jgetD data "candidates".data (J.arr (.cons (J.obj .nil) .nil))
  let c0 ← index0 cands
  let content ← jgetD c0 "content".data (J.obj .nil)
  let parts ← jgetD content "parts".data (J.arr (.cons (J.obj .nil) .nil))
  let p0 ← index0 parts
  jgetD p0 "text".data (J.str [])

/-- Line 105 of `src/main.py`:
`data.get("choices", ...)[0].get("message", {}).get("content", "")`
with `none` for a raised error. -/
def mainGroqExtract (data : J) : Option J := do
  let choices ← jgetD data "choices".data (J.arr (.cons (J.obj .nil) .nil))
  let c0 ← index0 choices
  let msg ← jgetD c0 "message".data (J.obj .nil)
  jgetD msg "content".data (J.str [])

/-- The system preamble sent by the Groq branch of `llm_generate`. -/
def groqSystemMsg : String := "You are a world-class senior management consultant AI."

/-- `llm_generate` from `src/main.py` (lines 88–112).  The result value
is a decoded Python value: the branches return strings, but a present
non-string completion field is passed through unchanged, so the
codomain is `J`. -/
def llm_generate (cfg : MainConfig) (prompt : String) (provider : Option String)
    (net : NetResult) : Option Request × J :=
  if provider = some "gemini" then
    if cfg.gemini_api_key = "" then (none, .str "[ERROR] GEMINI_API_KEY missing.".data)
    else
      let req := Request.gemini
        ("https://generativelanguage.googleapis.com/v1beta/models/" ++ cfg.gemini_model ++ ":generateContent")
        cfg.gemini_api_key prompt temp04 8192
      (some req,
        match net with
        | .noResponse e => .str ("[ERROR] Gemini call failed: " ++ e).data
        | .response st body =>
          if 400 ≤ st ∧ st < 600 then
            .str ("[ERROR] Gemini call failed: " ++ httpErrStr st).data
          else
            match parseJson body.data with
            | none => .str ("[ERROR] Gemini call failed: " ++ excDetail).data
            | some data =>
              match mainGeminiExtract data with
              | none => .str ("[ERROR] Gemini call failed: " ++ excDetail).data
              | some v => v)
  else if provider = some "groq" then
    if cfg.groq_api_key = "" then (none, .str "[ERROR] GROQ_API_KEY missing.".data)
    else
      let req := Request.groq "https://api.groq.com/openai/v1/chat/completions"
        cfg.groq_api_key cfg.groq_model [("system", groqSystemMsg), ("user", prompt)]
        temp04 (some 8192)
      (some req,
        match net with
        | .noResponse e => .str ("[ERROR] Groq call failed: " ++ e).data
        | .response st body =>
          if 400 ≤ st ∧ st < 600 then
            .str ("[ERROR] Groq call failed: " ++ httpErrStr st).data
          else
            match parseJson body.data with
            | none => .str ("[ERROR] Groq call failed: " ++ excDetail).data
            | some data =>
              match mainGroqExtract data with
              | none => .str ("[ERROR] Groq call failed: " ++ excDetail).data
              | some v => v)
  else
    let req := Request.ollama (cfg.ollama_host ++ "/api/generate")
      cfg.ollama_model prompt false (some temp04)
    (some req,
      match net with
      | .noResponse e => .str ("[ERROR] Ollama call failed: " ++ e).data
      | .response st body =>
        if 400 ≤ st ∧ st < 600 then
          .str ("[ERROR] Ollama call failed: " ++ httpErrStr st).data
        else
          match parseJson body.data with
          | none => .str ("[ERROR] Ollama call failed: " ++ excDetail).data
          | some data =>
            match jgetD data "response".data (J.str []) with
            | none => .str ("[ERROR] Ollama call failed: " ++ excDetail).data
            | some v => v)

/-- How the route handlers invoke `llm_generate`: with the provider
argument left at its default `DEFAULT_PROVIDER`. -/
def llm_generate_default (cfg : MainConfig) (prompt : String) (net : NetResult) :
    Option Request × J :=
  llm_generate cfg prompt (some cfg.default_provider) net

-- ------------------------------------------------------------------
-- Concrete values and response builders used by the statements.
-- ------------------------------------------------------------------

/-- Substring containment on character lists. -/
def seqContains (p s : List Char) : Bool :=
  (List.range (s.length + 1)).any fun i => (s.drop i).take p.length == p

/-- A provider configuration with both API keys present. -/
def cfgEx : ProvidersConfig := ⟨"k", "m", "gk", "qm", "oh", "om"⟩

/-- A `src/main.py` configuration whose configured default provider is
`gemini` and whose API keys are present. -/
def cfgExM : MainConfig := ⟨"gemini", "k", "gm", "gk", "qm", "oh", "om"⟩

/-- An empty keyword-argument bag. -/
def kwNone : KwArgs := ⟨none, none⟩

/-- A transport failure used as a generic network outcome. -/
def netT : NetResult := .noResponse "boom"

/-- A well-shaped Gemini response body: one candidate whose content
parts carry the given text fragments. -/
def mkGeminiResp (parts : List (List Char)) : J :=
  J.obj (.cons "candidates".data
    (J.arr (.cons
      (J.obj (.cons "content".data
        (J.obj (.cons "parts".data
          (J.arr (JList.ofList (parts.map fun t => J.obj (.cons "text".data (J.str t) .nil))))
          .nil))
        .nil))
      .nil))
    .nil)

/-- The serialized Gemini response of the specification's example: two
text parts `"Hello, "` and `"world."` in the first candidate. -/
def geminiBody2 : String :=
  "\x7b\"candidates\": [\x7b\"content\": \x7b\"parts\": [\x7b\"text\": \"Hello, \"\x7d, \x7b\"text\": \"world.\"\x7d]\x7d\x7d]\x7d"

-- ------------------------------------------------------------------
-- Notions used by the round-trip analysis of the extractor.
-- ------------------------------------------------------------------

/-- A character that is neither brace. -/
def notBrace (c : Char) : Bool := !(c == lbrace || c == rbrace)

mutual

/-- No string literal (key or value) anywhere in the value contains a
brace character — the condition under which the brace-counting scan of
`parse_json_from_llm` cannot be fooled. -/
def bfJ : J → Bool
  | .null => true
  | .bool _ => true
  | .num _ => true
  | .str s => s.all notBrace
  | .arr xs => bfL xs
  | .obj fs => bfF fs

/-- `bfJ` over array elements. -/
def bfL : JList → Bool
  | .nil => true
  | .cons v tl => bfJ v && bfL tl

/-- `bfJ` over object members (keys included). -/
def bfF : JFields → Bool
  | .nil => true
  | .cons k v tl => k.all notBrace && bfJ v && bfF tl

end

mutual

/-- A size measure used as a fuel bound for the parser. -/
def jsize : J → Nat
  | .null => 1
  | .bool _ => 1
  | .num _ => 1
  | .str _ => 1
  | .arr xs => 1 + jsizeL xs
  | .obj fs => 1 + jsizeF fs

/-- `jsize` over array elements. -/
def jsizeL : JList → Nat
  | .nil => 0
  | .cons v tl => 1 + jsize v + jsizeL tl

/-- `jsize` over object members. -/
def jsizeF : JFields → Nat
  | .nil => 0
  | .cons _ v tl => 1 + jsize v + jsizeF tl

end

/-- Continuations after which a serialized value parses back exactly:
anything not starting with a digit (a digit would extend a serialized
number). -/
def restOk : List Char → Prop
  | [] => True
  | c :: _ => c.isDigit = false

/-- The character list passes through the brace scan at depth `d`,
shifting any later match by its length. -/
def ScanPass (cs : List Char) (d : Int) : Prop :=
  ∀ rest, scanBalanced (cs ++ rest) d = (scanBalanced rest d).map (· + cs.length)

/-- A concrete brace-free object used to witness the round-trip. -/
def c4fs : JFields :=
  .cons "a".data (J.arr (JList.ofList [J.num 1, J.num (-23), J.bool true, J.null]))
    (.cons "b".data (J.obj (.cons "c".data (J.str "x y\n".data) .nil)) .nil)

-- ==================================================================
-- Theorems.
-- ==================================================================

-- The rational constants standing for the float literals, written as
-- the fractions that appear in the source.

theorem temp03_eq_div : temp03 = 3 / 10 := by
  apply Rat.ext <;> norm_num [temp03]

theorem temp04_eq_div : temp04 = 2 / 5 := by
  apply Rat.ext <;> norm_num [temp04]

-- Helper lemmas about the Gemini response builder.

theorem JList.toList_ofList (l : List J) : (JList.ofList l).toList = l := by
  induction l with
  | nil => rfl
  | cons v vs ih => simp [JList.ofList, JList.toList, ih]

theorem joinStrs_map_str (l : List (List Char)) :
    joinStrs (l.map J.str) = some l.flatten := by
  induction l with
  | nil => rfl
  | cons s l ih => simp [joinStrs, ih, List.flatten]

theorem collectTexts_map_text (l : List (List Char)) :
    collectTexts (l.map fun t => J.obj (.cons "text".data (J.str t) .nil))
      = l.map J.str := by
  induction l with
  | nil => rfl
  | cons t l ih => simp [collectTexts, lookupF, ih]

theorem geminiExtract_mk (parts : List (List Char)) :
    geminiExtract (mkGeminiResp parts) = some parts.flatten := by
  cases parts with
  | nil => rfl
  | cons t rest =>
    simp [geminiExtract, mkGeminiResp, jgetNull, lookupF, pyOr, pyTruthy, index0,
      iterElems, JList.toList, JList.toList_ofList, collectTexts,
      collectTexts_map_text, joinStrs, joinStrs_map_str, JList.ofList]

theorem mainGeminiExtract_mk (t0 : List Char) (rest : List (List Char)) :
    mainGeminiExtract (mkGeminiResp (t0 :: rest)) = some (J.str t0) := by
  simp [mainGeminiExtract, mkGeminiResp, jgetD, lookupF, index0, JList.ofList]

-- ------------------------------------------------------------------
-- C10.
-- ------------------------------------------------------------------

/-- C10: the router accepts a missing provider: `call_llm` applied to
`None` equals `call_llm` applied to the empty string (no exception is
possible — the embedding is a total function), and both are dispatched
to the fall-through branch of the router, i.e. to the Gemini adapter,
exactly like any unrecognized identifier. -/
theorem c10_none_provider (cfg : ProvidersConfig) (prompt : String)
    (kw : KwArgs) (net : NetResult) :
    call_llm cfg none prompt kw net = call_llm cfg (some "") prompt kw net ∧
    call_llm cfg none prompt kw net
      = call_gemini cfg prompt (kw.max_tokens.getD 1024) (kw.temperature.getD temp03) net :=
  ⟨rfl, rfl⟩

-- ------------------------------------------------------------------
-- C5.
-- ------------------------------------------------------------------

/-- C5: with an empty configured API key, the Gemini and Groq adapters
(and the corresponding branches of `llm_generate`) return an error
sentinel naming the provider and issue no network request: the request
component of the result is `none`. -/
theorem c5_empty_key_short_circuit (cfg : ProvidersConfig) (cfgm : MainConfig)
    (prompt p2 : String) (mt : Nat) (temp : ℚ) (net net2 : NetResult)
    (hg : cfg.gemini_api_key = "") (hq : cfg.groq_api_key = "")
    (hmg : cfgm.gemini_api_key = "") (hmq : cfgm.groq_api_key = "") :
    call_gemini cfg prompt mt temp net = (none, "[ERROR] GEMINI_API_KEY not set.") ∧
    call_groq cfg prompt temp net = (none, "[ERROR] GROQ_API_KEY not set.") ∧
    llm_generate cfgm p2 (some "gemini") net2
      = (none, J.str "[ERROR] GEMINI_API_KEY missing.".data) ∧
    llm_generate cfgm p2 (some "groq") net2
      = (none, J.str "[ERROR] GROQ_API_KEY missing.".data) ∧
    seqContains "gemini".data (pyLowerStrip "[ERROR] GEMINI_API_KEY not set.").data = true ∧
    seqContains "groq".data (pyLowerStrip "[ERROR] GROQ_API_KEY not set.").data = true := by
  refine ⟨?_, ?_, ?_, ?_, by decide, by decide⟩ <;>
    simp [call_gemini, call_groq, llm_generate, hg, hq, hmg, hmq]

/-- Witness for C5 at a concrete empty-key configuration. -/
theorem c5_empty_key_short_circuit_witness :
    call_gemini ⟨"", "m", "", "qm", "oh", "om"⟩ "p" 1024 temp03 netT
      = (none, "[ERROR] GEMINI_API_KEY not set.") ∧
    call_groq ⟨"", "m", "", "qm", "oh", "om"⟩ "p" temp03 netT
      = (none, "[ERROR] GROQ_API_KEY not set.") ∧
    llm_generate ⟨"ollama", "", "gm", "", "qm", "oh", "om"⟩ "p" (some "gemini") netT
      = (none, J.str "[ERROR] GEMINI_API_KEY missing.".data) ∧
    llm_generate ⟨"ollama", "", "gm", "", "qm", "oh", "om"⟩ "p" (some "groq") netT
      = (none, J.str "[ERROR] GROQ_API_KEY missing.".data) ∧
    seqContains "gemini".data (pyLowerStrip "[ERROR] GEMINI_API_KEY not set.").data = true ∧
    seqContains "groq".data (pyLowerStrip "[ERROR] GROQ_API_KEY not set.").data = true :=
  c5_empty_key_short_circuit ⟨"", "m", "", "qm", "oh", "om"⟩
    ⟨"ollama", "", "gm", "", "qm", "oh", "om"⟩ "p" "p" 1024 temp03 netT netT
    rfl rfl rfl rfl

-- ------------------------------------------------------------------
-- C1.
-- ------------------------------------------------------------------

/-- C1 counterexample: an unrecognized provider identifier is not
routed like the configured default provider.  In `call_llm` the
identifier `"xyz"` falls through to the Gemini adapter while
`"ollama"` — the claimed default — yields an Ollama request; in
`llm_generate`, with the configured default provider set to
`"gemini"`, the identifier `"xyz"` yields an Ollama request while the
configured default yields a Gemini request. -/
theorem c1_counterexample :
    (call_llm cfgEx (some "xyz") "p" kwNone netT).1
      = some (Request.gemini
          "https://generativelanguage.googleapis.com/v1beta/models/m:generateContent"
          "k" "p" temp03 1024) ∧
    (call_llm cfgEx (some "ollama") "p" kwNone netT).1
      = some (Request.ollama "oh/api/generate" "om" "p" false none) ∧
    (call_llm cfgEx (some "xyz") "p" kwNone netT).1
      ≠ (call_llm cfgEx (some "ollama") "p" kwNone netT).1 ∧
    cfgExM.default_provider = "gemini" ∧
    (llm_generate cfgExM "p" (some "xyz") netT).1
      ≠ (llm_generate cfgExM "p" (some cfgExM.default_provider) netT).1 := by
  decide

/-- C1 amended: an unrecognized (normalized) identifier makes
`call_llm` fall through to the Gemini adapter, and a provider other
than exactly `"gemini"`/`"groq"` makes `llm_generate` fall through to
its Ollama branch, irrespective of the configured default provider. -/
theorem c1_fallback_fixed_adapters (cfg : ProvidersConfig) (cfgm : MainConfig)
    (s prompt p2 : String) (kw : KwArgs) (net net2 : NetResult) (prov : Option String)
    (h1 : pyLowerStrip s ≠ "groq") (h2 : pyLowerStrip s ≠ "ollama")
    (h3 : prov ≠ some "gemini") (h4 : prov ≠ some "groq") :
    call_llm cfg (some s) prompt kw net
      = call_gemini cfg prompt (kw.max_tokens.getD 1024) (kw.temperature.getD temp03) net ∧
    llm_generate cfgm p2 prov net2 = llm_generate cfgm p2 (some "ollama") net2 ∧
    (llm_generate cfgm p2 prov net2).1
      = some (Request.ollama (cfgm.ollama_host ++ "/api/generate")
          cfgm.ollama_model p2 false (some temp04)) := by
  refine ⟨?_, ?_, ?_⟩
  · simp [call_llm, h1, h2]
  · simp [llm_generate, h3, h4]
  · simp [llm_generate, h3, h4]

/-- Witness for the amended C1 at the identifiers `"xyz"`/`"zzz"`. -/
theorem c1_fallback_fixed_adapters_witness :
    call_llm cfgEx (some "xyz") "p" kwNone netT
      = call_gemini cfgEx "p" (kwNone.max_tokens.getD 1024) (kwNone.temperature.getD temp03) netT ∧
    llm_generate cfgExM "p" (some "zzz") netT = llm_generate cfgExM "p" (some "ollama") netT ∧
    (llm_generate cfgExM "p" (some "zzz") netT).1
      = some (Request.ollama (cfgExM.ollama_host ++ "/api/generate")
          cfgExM.ollama_model "p" false (some temp04)) :=
  c1_fallback_fixed_adapters cfgEx cfgExM "xyz" "p" "p" kwNone netT netT (some "zzz")
    (by decide) (by decide) (by decide) (by decide)

-- ------------------------------------------------------------------
-- C2.
-- ------------------------------------------------------------------

/-- C2 counterexample: an unexpected response shape is not always
converted into an error sentinel.  A 200 response whose body is the
empty object makes `call_gemini` return the (truncated) dump of the
body — a string that does not start with the error marker. -/
theorem c2_counterexample :
    (call_gemini cfgEx "p" 1024 temp03 (.response 200 "\x7b\x7d")).2 = "\x7b\x7d" ∧
    ("\x7b\x7d" : String).startsWith "[ERROR]" = false := by
  decide

/-- C2 amended: every transport failure and every 4xx/5xx response is
converted into an error sentinel embedding the provider name (and, for
HTTP errors, the status and the response body); response shapes whose
access raises (here: Groq on an empty object) are likewise caught into
a sentinel; the adapters never raise — they are total functions into
result strings, with benign unexpected shapes degrading to non-error
fallback values. -/
theorem c2_failure_sentinels (cfg : ProvidersConfig) (prompt e body : String)
    (mt : Nat) (temp : ℚ) (st : Nat)
    (hg : cfg.gemini_api_key ≠ "") (hq : cfg.groq_api_key ≠ "")
    (h4 : 400 ≤ st) (h6 : st < 600) :
    (call_gemini cfg prompt mt temp (.noResponse e)).2 = "[ERROR] Gemini failure: " ++ e ∧
    (call_gemini cfg prompt mt temp (.response st body)).2
      = "[ERROR] Gemini HTTP " ++ toString st ++ ": " ++ body ∧
    (call_groq cfg prompt temp (.noResponse e)).2 = "[ERROR] Groq failure: " ++ e ∧
    (call_groq cfg prompt temp (.response st body)).2
      = "[ERROR] Groq HTTP " ++ toString st ++ ": " ++ body ∧
    (call_ollama cfg prompt (.noResponse e)).2 = "[ERROR] Ollama failure: " ++ e ∧
    (call_ollama cfg prompt (.response st body)).2
      = "[ERROR] Ollama HTTP " ++ toString st ++ ": " ++ body ∧
    (call_groq cfg prompt temp (.response 200 "\x7b\x7d")).2
      = "[ERROR] Groq failure: " ++ excDetail := by
  have hc : 400 ≤ st ∧ st < 600 := ⟨h4, h6⟩
  have hpj : parseJson "\x7b\x7d".data = some (J.obj .nil) := rfl
  have hge : groqExtract (J.obj .nil) = none := rfl
  refine ⟨?_, ?_, ?_, ?_, ?_, ?_, ?_⟩ <;>
    simp [call_gemini, call_groq, call_ollama, hg, hq, hc, hpj, hge]

/-- Witness for the amended C2 at status 404. -/
theorem c2_failure_sentinels_witness :
    (call_gemini cfgEx "p" 1024 temp03 (.noResponse "boom")).2
      = "[ERROR] Gemini failure: " ++ "boom" ∧
    (call_gemini cfgEx "p" 1024 temp03 (.response 404 "oops")).2
      = "[ERROR] Gemini HTTP " ++ toString 404 ++ ": " ++ "oops" ∧
    (call_groq cfgEx "p" temp03 (.noResponse "boom")).2
      = "[ERROR] Groq failure: " ++ "boom" ∧
    (call_groq cfgEx "p" temp03 (.response 404 "oops")).2
      = "[ERROR] Groq HTTP " ++ toString 404 ++ ": " ++ "oops" ∧
    (call_ollama cfgEx "p" (.noResponse "boom")).2
      = "[ERROR] Ollama failure: " ++ "boom" ∧
    (call_ollama cfgEx "p" (.response 404 "oops")).2
      = "[ERROR] Ollama HTTP " ++ toString 404 ++ ": " ++ "oops" ∧
    (call_groq cfgEx "p" temp03 (.response 200 "\x7b\x7d")).2
      = "[ERROR] Groq failure: " ++ excDetail :=
  c2_failure_sentinels cfgEx "p" "boom" "oops" 1024 temp03 404
    (by decide) (by decide) (by decide) (by decide)

-- ------------------------------------------------------------------
-- C7.
-- ------------------------------------------------------------------

/-- C7 counterexample: a successful Ollama response with a missing
`"response"` field does not make `call_ollama` return the empty
string — it returns the dump of the body instead. -/
theorem c7_counterexample :
    (call_ollama cfgEx "p" (.response 200 "\x7b\x7d")).2 = "\x7b\x7d" ∧
    ("\x7b\x7d" : String) ≠ "" := by
  decide

/-- C7 amended: on a successful response whose decoded body lacks the
`"response"` field, the Ollama branch of `llm_generate` returns the
empty string as a success value, while `call_ollama` instead returns
the (truncated) dump of the body — still a success value, not an error
sentinel. -/
theorem c7_missing_response_field (cfg : ProvidersConfig) (cfgm : MainConfig)
    (prompt p2 body : String) (st : Nat) (fs : JFields)
    (hst : ¬(400 ≤ st ∧ st < 600))
    (hb : parseJson body.data = some (J.obj fs))
    (hmiss : lookupF fs "response".data = none) :
    (call_ollama cfg prompt (.response st body)).2 = dump2000 (J.obj fs) ∧
    (llm_generate cfgm p2 (some "ollama") (.response st body)).2 = J.str [] := by
  have h2 : jgetD (J.obj fs) "response".data (J.str []) = some (J.str []) := by
    simp [jgetD, hmiss]
  have h3 : ollamaExtract (J.obj fs) = some [] := by
    simp [ollamaExtract, jgetNull, hmiss, pyOr, pyTruthy, pyStrip]
  constructor
  · simp [call_ollama, hst, hb, h3]
  · simp [llm_generate, hst, hb, h2]

/-- Witness for the amended C7 at the empty-object body. -/
theorem c7_missing_response_field_witness :
    (call_ollama cfgEx "p" (.response 200 "\x7b\x7d")).2 = dump2000 (J.obj .nil) ∧
    (llm_generate cfgExM "p" (some "ollama") (.response 200 "\x7b\x7d")).2 = J.str [] :=
  c7_missing_response_field cfgEx cfgExM "p" "p" "\x7b\x7d" 200 .nil
    (by decide) rfl rfl

-- ------------------------------------------------------------------
-- C8.
-- ------------------------------------------------------------------

/-- C8 counterexample: `llm_generate` does not normalize the provider
identifier: `"GROQ"` is routed to the Ollama branch while `"groq"` is
routed to the Groq branch, so case variants do not dispatch to the same
adapter. -/
theorem c8_counterexample :
    (llm_generate cfgExM "p" (some "GROQ") netT).1
      = some (Request.ollama "oh/api/generate" "om" "p" false (some temp04)) ∧
    (llm_generate cfgExM "p" (some "groq") netT).1
      = some (Request.groq "https://api.groq.com/openai/v1/chat/completions"
          "gk" "qm" [("system", groqSystemMsg), ("user", "p")] temp04 (some 8192)) ∧
    (llm_generate cfgExM "p" (some "GROQ") netT).1
      ≠ (llm_generate cfgExM "p" (some "groq") netT).1 := by
  decide

/-- C8 amended: the router `call_llm` normalizes the identifier by
lower-casing and stripping before matching, so any case/whitespace
variant of `"groq"` or `"ollama"` dispatches to that adapter; the
route-level `llm_generate` compares the raw string instead, so any
identifier other than exactly `"gemini"`/`"groq"` falls through to its
Ollama branch. -/
theorem c8_normalization (cfg : ProvidersConfig) (cfgm : MainConfig)
    (s t prompt p2 : String) (kw : KwArgs) (net net2 : NetResult) (prov : Option String)
    (hs : pyLowerStrip s = "groq") (ht : pyLowerStrip t = "ollama")
    (hp : prov ≠ some "gemini") (hp2 : prov ≠ some "groq") :
    call_llm cfg (some s) prompt kw net
      = call_groq cfg prompt (kw.temperature.getD temp03) net ∧
    call_llm cfg (some t) prompt kw net = call_ollama cfg prompt net ∧
    llm_generate cfgm p2 prov net2 = llm_generate cfgm p2 (some "ollama") net2 := by
  refine ⟨?_, ?_, ?_⟩
  · simp [call_llm, hs]
  · simp [call_llm, ht]
  · simp [llm_generate, hp, hp2]

/-- Witness for the amended C8 at `" GROQ "`, `"Ollama"` and the raw
identifier `"GROQ"`. -/
theorem c8_normalization_witness :
    call_llm cfgEx (some " GROQ ") "p" kwNone netT
      = call_groq cfgEx "p" (kwNone.temperature.getD temp03) netT ∧
    call_llm cfgEx (some "Ollama") "p" kwNone netT = call_ollama cfgEx "p" netT ∧
    llm_generate cfgExM "p" (some "GROQ") netT
      = llm_generate cfgExM "p" (some "ollama") netT :=
  c8_normalization cfgEx cfgExM " GROQ " "Ollama" "p" "p" kwNone netT netT (some "GROQ")
    (by decide) (by decide) (by decide) (by decide)

-- ------------------------------------------------------------------
-- C6.
-- ------------------------------------------------------------------

/-- C6 counterexample: on the specification's own example — a Gemini
response with the two text parts `"Hello, "` and `"world."` — the
`gemini` branch of `llm_generate` returns only the first part's text,
not the concatenation. -/
theorem c6_counterexample :
    (llm_generate cfgExM "p" (some "gemini") (.response 200 geminiBody2)).2
      = J.str "Hello, ".data ∧
    J.str "Hello, ".data ≠ J.str "Hello, world.".data := by
  decide

/-- C6 amended: on a well-shaped Gemini response, `call_gemini` returns
the whitespace-stripped concatenation of all text fragments of the
first candidate's parts, falling back to the (truncated) dump of the
body when the stripped concatenation is empty; the `gemini` branch of
`llm_generate` returns only the first part's text field. -/
theorem c6_gemini_text_extraction (cfg : ProvidersConfig) (cfgm : MainConfig)
    (prompt p2 body : String) (mt : Nat) (temp : ℚ) (st : Nat)
    (parts : List (List Char)) (t0 : List Char) (rest : List (List Char))
    (hg : cfg.gemini_api_key ≠ "") (hmg : cfgm.gemini_api_key ≠ "")
    (hst : ¬(400 ≤ st ∧ st < 600))
    (hb : parseJson body.data = some (mkGeminiResp parts))
    (hparts : parts = t0 :: rest) :
    (call_gemini cfg prompt mt temp (.response st body)).2
      = (if pyStrip parts.flatten = [] then dump2000 (mkGeminiResp parts)
         else String.mk (pyStrip parts.flatten)) ∧
    (llm_generate cfgm p2 (some "gemini") (.response st body)).2 = J.str t0 := by
  constructor
  · simp [call_gemini, hg, hst, hb, geminiExtract_mk]
  · subst hparts
    simp [llm_generate, hmg, hst, hb, mainGeminiExtract_mk]

/-- Witness for the amended C6 at the two-part example response. -/
theorem c6_gemini_text_extraction_witness :
    (call_gemini cfgEx "p" 1024 temp03 (.response 200 geminiBody2)).2
      = (if pyStrip (["Hello, ".data, "world.".data] : List (List Char)).flatten = []
         then dump2000 (mkGeminiResp ["Hello, ".data, "world.".data])
         else String.mk (pyStrip (["Hello, ".data, "world.".data] : List (List Char)).flatten)) ∧
    (llm_generate cfgExM "p" (some "gemini") (.response 200 geminiBody2)).2
      = J.str "Hello, ".data :=
  c6_gemini_text_extraction cfgEx cfgExM "p" "p" geminiBody2 1024 temp03 200
    ["Hello, ".data, "world.".data] "Hello, ".data ["world.".data]
    (by decide) (by decide) (by decide) rfl rfl

-- ------------------------------------------------------------------
-- C3: the extractor implements exactly the specified algorithm.
-- ------------------------------------------------------------------

theorem findIdx?_eq_firstIdx (p : Char → Bool) (l : List Char) :
    ∀ i, List.findIdx? p l i = (firstIdx p l).map (· + i) := by
  induction l with
  | nil => intro i; simp [firstIdx]
  | cons c cs ih =>
    intro i
    by_cases h : p c
    · simp [List.findIdx?_cons, firstIdx, h]
    · simp only [List.findIdx?_cons, firstIdx, h, if_false, Bool.false_eq_true, ite_false,
        ih (i + 1)]
      cases firstIdx p cs <;> simp
      omega

theorem firstIdx_lbrace (text : List Char) :
    firstIdx (fun c => c = lbrace) text = text.findIdx? (· == lbrace) := by
  have hp : (fun c => (c == lbrace)) = (fun c => decide (c = lbrace)) := by
    funext c
    by_cases h : c = lbrace <;> simp [h]
  rw [show text.findIdx? (· == lbrace) = List.findIdx? (fun c => (c == lbrace)) text 0 from rfl,
    hp, findIdx?_eq_firstIdx]
  cases firstIdx (fun c => decide (c = lbrace)) text <;> simp

theorem scanBalanced_eq_find (cs : List Char) : ∀ d : Int,
    scanBalanced cs d
      = ((List.range cs.length).find? (fun i => d + braceSum (cs.take (i + 1)) == 0)).map (· + 1) := by
  induction cs with
  | nil => intro d; simp [scanBalanced]
  | cons c cs ih =>
    intro d
    have hbs : braceSum [c] = braceDelta c := by simp [braceSum]
    by_cases h : d + braceDelta c = 0
    · simp [scanBalanced, List.range_succ_eq_map, List.find?_cons, hbs, h]
    · have hf : (d + braceSum [c] == 0) = false := by
        rw [hbs]
        simpa using h
      simp only [scanBalanced, List.length_cons, List.range_succ_eq_map, List.find?_cons,
        List.take_succ_cons, List.take_zero, hf, if_neg h]
      simp only [List.find?_map]
      have hcomp :
          ((fun i => d + braceSum (c :: List.take i cs) == 0) ∘ Nat.succ)
            = (fun i => d + braceDelta c + braceSum (cs.take (i + 1)) == 0) := by
        funext i
        simp [Function.comp, braceSum, Nat.succ_eq_add_one, add_assoc]
      rw [hcomp, ih (d + braceDelta c)]

/-- C3: `parse_json_from_llm` coincides with the specification's
algorithm on every input — first left brace, running brace-depth count
ending at the first return to zero, candidate parse with the raw-text
fallback on any failure, first balanced object only. -/
theorem c3_extract_algorithm (text : List Char) :
    parse_json_from_llm text = extractJsonSpec text := by
  unfold parse_json_from_llm extractJsonSpec
  rw [← firstIdx_lbrace]
  cases h1 : firstIdx (fun c => c = lbrace) text with
  | none => rfl
  | some s =>
    simp only
    rw [scanBalanced_eq_find]
    have hpred : (fun i => 0 + braceSum ((text.drop s).take (i + 1)) == 0)
        = (fun i => braceSum ((text.drop s).take (i + 1)) == 0) := by
      funext i
      rw [Int.zero_add]
    rw [hpred]
    cases h2 : List.find? (fun i => braceSum ((text.drop s).take (i + 1)) == 0)
        (List.range (text.drop s).length) with
    | none => rfl
    | some i => rfl

-- ------------------------------------------------------------------
-- C9: the extractor always returns an object.
-- ------------------------------------------------------------------

theorem scanBalanced_pos (cs : List Char) (d : Int) {n : Nat}
    (h : scanBalanced cs d = some n) : 1 ≤ n := by
  cases cs with
  | nil => simp [scanBalanced] at h
  | cons c cs =>
    simp only [scanBalanced] at h
    split at h
    · cases h; omega
    · obtain ⟨m, _, rfl⟩ := Option.map_eq_some'.mp h
      omega

theorem firstIdx_drop (p : Char → Bool) (l : List Char) :
    ∀ i, firstIdx p l = some i → ∃ c cs', l.drop i = c :: cs' ∧ p c = true := by
  induction l with
  | nil => intro i h; simp [firstIdx] at h
  | cons c cs ih =>
    intro i h
    simp only [firstIdx] at h
    split at h
    · cases h
      exact ⟨c, cs, rfl, by assumption⟩
    · obtain ⟨j, hj, rfl⟩ := Option.map_eq_some'.mp h
      obtain ⟨c', cs', hd, hp⟩ := ih j hj
      exact ⟨c', cs', by simpa using hd, hp⟩

theorem parseFields_obj (fuel : Nat) (cs : List Char) (v : J) (r : List Char)
    (h : parseFields fuel cs = some (v, r)) : ∃ fs, v = J.obj fs := by
  cases fuel with
  | zero => simp [parseFields] at h
  | succ f =>
    simp only [parseFields] at h
    repeat' split at h
    all_goals try (exact Option.noConfusion h)
    all_goals
      rw [Option.some_inj, Prod.mk.injEq] at h
      exact ⟨_, h.1.symm⟩

theorem parseVal_brace_obj (fuel : Nat) (cs' : List Char) (v : J) (r : List Char)
    (h : parseVal fuel (lbrace :: cs') = some (v, r)) : ∃ fs, v = J.obj fs := by
  cases fuel with
  | zero => simp [parseVal] at h
  | succ f =>
    have hsk : skipWs (lbrace :: cs') = lbrace :: cs' := by
      simp [skipWs, List.dropWhile_cons, isJWs, lbrace]
    cases hsk2 : skipWs cs' with
    | nil =>
      have hv : parseVal (f + 1) (lbrace :: cs') = none := by
        simp [parseVal, hsk, hsk2]
      rw [hv] at h
      exact Option.noConfusion h
    | cons c2 rest2 =>
      by_cases hc : c2 = rbrace
      · have hv : parseVal (f + 1) (lbrace :: cs') = some (J.obj .nil, rest2) := by
          simp [parseVal, hsk, hsk2, hc]
        rw [hv] at h
        rw [Option.some_inj, Prod.mk.injEq] at h
        exact ⟨_, h.1.symm⟩
      · have hv : parseVal (f + 1) (lbrace :: cs') = parseFields f (c2 :: rest2) := by
          simp [parseVal, hsk, hsk2, hc]
        rw [hv] at h
        exact parseFields_obj _ _ _ _ h

theorem parseJson_obj (t : List Char) (v : J)
    (h : parseJson (lbrace :: t) = some v) : ∃ fs, v = J.obj fs := by
  unfold parseJson at h
  split at h
  · split at h
    · cases h
      exact parseVal_brace_obj _ _ _ _ (by assumption)
    · simp at h
  · simp at h

/-- C9: `parse_json_from_llm` is total and always returns a dictionary:
either the object parsed from the brace-delimited candidate — which,
starting with a left brace, can only decode to an object, never a list
or scalar — or the fallback `rawObj text` carrying the input. -/
theorem c9_always_object (text : List Char) :
    ∃ fs, parse_json_from_llm text = J.obj fs := by
  unfold parse_json_from_llm
  cases h1 : firstIdx (fun c => c = lbrace) text with
  | none => exact ⟨_, rfl⟩
  | some s =>
    simp only
    cases h2 : scanBalanced (text.drop s) 0 with
    | none => exact ⟨_, rfl⟩
    | some n =>
      cases h3 : parseJson ((text.drop s).take n) with
      | none =>
        simp only [h3]
        exact ⟨_, rfl⟩
      | some v =>
        have h3g := h3
        obtain ⟨c, cs', hd, hp⟩ := firstIdx_drop _ _ _ h1
        have hc : c = lbrace := by simpa using hp
        subst hc
        have hn := scanBalanced_pos _ _ h2
        rw [hd] at h3
        obtain ⟨m, rfl⟩ : ∃ m, n = m + 1 := ⟨n - 1, by omega⟩
        rw [List.take_succ_cons] at h3
        obtain ⟨fs, rfl⟩ := parseJson_obj _ _ h3
        exact ⟨fs, by simp only [h3g]⟩

-- ------------------------------------------------------------------
-- C4: round-trip machinery — numbers.
-- ------------------------------------------------------------------

theorem digitChar_isDigit (d : Nat) (h : d < 10) : (Nat.digitChar d).isDigit = true := by
  interval_cases d <;> decide

theorem digitChar_toNat (d : Nat) (h : d < 10) : (Nat.digitChar d).toNat = 48 + d := by
  interval_cases d <;> decide

theorem natDigits_digits (f : Nat) : ∀ n, n < f → ∀ c ∈ natDigits f n, c.isDigit = true := by
  induction f with
  | zero => intro n h; omega
  | succ f ih =>
    intro n h c hc
    rw [natDigits] at hc
    split at hc
    · rename_i h10
      simp only [List.mem_singleton] at hc
      subst hc
      exact digitChar_isDigit n h10
    · rename_i h10
      rcases List.mem_append.mp hc with h1 | h2
      · exact ih (n / 10) (by omega) c h1
      · simp only [List.mem_singleton] at h2
        subst h2
        exact digitChar_isDigit (n % 10) (Nat.mod_lt _ (by norm_num))

theorem natDigits_ne_nil (f n : Nat) (h : n < f) : natDigits f n ≠ [] := by
  cases f with
  | zero => omega
  | succ f =>
    rw [natDigits]
    split <;> simp

theorem digitsVal_append_last (xs : List Char) (d : Char) :
    digitsVal (xs ++ [d]) = 10 * digitsVal xs + (d.toNat - 48) := by
  simp [digitsVal, List.foldl_append]

theorem digitsVal_natDigits (f : Nat) : ∀ n, n < f → digitsVal (natDigits f n) = n := by
  induction f with
  | zero => omega
  | succ f ih =>
    intro n h
    rw [natDigits]
    split
    · rename_i h10
      simp [digitsVal, digitChar_toNat n h10]
    · rename_i h10
      rw [digitsVal_append_last, ih (n / 10) (by omega),
        digitChar_toNat (n % 10) (Nat.mod_lt _ (by norm_num))]
      omega

theorem takeWhile_append_all (p : Char → Bool) (xs rest : List Char)
    (h : ∀ c ∈ xs, p c = true) :
    (xs ++ rest).takeWhile p = xs ++ rest.takeWhile p := by
  induction xs with
  | nil => simp
  | cons c cs ih =>
    simp only [List.cons_append, List.takeWhile_cons, h c (by simp), if_true]
    rw [ih (fun c hc => h c (by simp [hc]))]

theorem dropWhile_append_all (p : Char → Bool) (xs rest : List Char)
    (h : ∀ c ∈ xs, p c = true) :
    (xs ++ rest).dropWhile p = rest.dropWhile p := by
  induction xs with
  | nil => simp
  | cons c cs ih =>
    simp only [List.cons_append, List.dropWhile_cons, h c (by simp), if_true]
    exact ih (fun c hc => h c (by simp [hc]))

theorem parseNatDigits_natStr (n : Nat) (rest : List Char) (hr : restOk rest) :
    parseNatDigits (natStr n ++ rest) = some (n, rest) := by
  have hd : ∀ c ∈ natStr n, Char.isDigit c = true := natDigits_digits (n + 1) n (by omega)
  have ht : rest.takeWhile Char.isDigit = [] := by
    cases rest with
    | nil => rfl
    | cons c cs =>
      simp only [restOk] at hr
      simp [List.takeWhile_cons, hr]
  have hdr : rest.dropWhile Char.isDigit = rest := by
    cases rest with
    | nil => rfl
    | cons c cs =>
      simp only [restOk] at hr
      simp [List.dropWhile_cons, hr]
  unfold parseNatDigits
  rw [takeWhile_append_all _ _ _ hd, dropWhile_append_all _ _ _ hd, ht, hdr, List.append_nil]
  obtain ⟨d, ds', hds⟩ := List.exists_cons_of_ne_nil (natDigits_ne_nil (n + 1) n (by omega))
  rw [show natStr n = d :: ds' from hds]
  show some (digitsVal (d :: ds'), rest) = some (n, rest)
  rw [show (d :: ds') = natStr n from hds.symm]
  rw [show digitsVal (natStr n) = n from digitsVal_natDigits (n + 1) n (by omega)]

theorem parseNum_intStr (n : Int) (rest : List Char) (hr : restOk rest) :
    parseNum (intStr n ++ rest) = some (J.num n, rest) := by
  unfold intStr
  split
  · rename_i hneg
    simp only [List.cons_append, parseNum, if_true]
    rw [parseNatDigits_natStr _ _ hr]
    simp [Int.toNat_of_nonneg (show (0:Int) ≤ -n by omega)]
  · rename_i hpos
    obtain ⟨d, ds', hds⟩ :=
      List.exists_cons_of_ne_nil (natDigits_ne_nil (n.toNat + 1) n.toNat (by omega))
    have hd : d.isDigit = true :=
      natDigits_digits (n.toNat + 1) n.toNat (by omega) d (by rw [hds]; simp)
    have hne : d ≠ '-' := fun he => by subst he; exact absurd hd (by decide)
    rw [show natStr n.toNat = d :: ds' from hds, List.cons_append]
    simp only [parseNum]
    rw [if_neg hne, ← List.cons_append, ← hds]
    rw [show natDigits (n.toNat + 1) n.toNat = natStr n.toNat from rfl]
    rw [parseNatDigits_natStr n.toNat rest hr]
    simp [Int.toNat_of_nonneg (show (0:Int) ≤ n by omega)]

-- ------------------------------------------------------------------
-- C4: round-trip machinery — string literals.
-- ------------------------------------------------------------------

theorem hexVal_hexDigit (d : Nat) (h : d < 16) : hexVal (hexDigit d) = some d := by
  interval_cases d <;> decide

theorem charFromNat_toNat (c : Char) (h : c.toNat < 55296) : charFromNat c.toNat = some c := by
  unfold charFromNat
  rw [if_pos (Or.inl h : Nat.isValidChar c.toNat)]
  rw [Char.ofNat_toNat]

theorem parseStrBody_escape (s : List Char) : ∀ rest,
    parseStrBody (escapeStr s ++ '"' :: rest) = some (s, rest) := by
  induction s with
  | nil =>
    intro rest
    rw [escapeStr, List.nil_append, parseStrBody.eq_def]
    simp
  | cons c cs ih =>
    intro rest
    rw [escapeStr, List.append_assoc]
    unfold escapeChar
    split_ifs with h1 h2 h3 h4 h5 h6 h7 h8
    · subst h1; rw [parseStrBody.eq_def]; simp [simpleUnescape, ih rest]
    · subst h2; rw [parseStrBody.eq_def]; simp [simpleUnescape, ih rest]
    · subst h3; rw [parseStrBody.eq_def]; simp [simpleUnescape, ih rest]
    · subst h4; rw [parseStrBody.eq_def]; simp [simpleUnescape, ih rest]
    · subst h5; rw [parseStrBody.eq_def]; simp [simpleUnescape, ih rest]
    · subst h6; rw [parseStrBody.eq_def]; simp [simpleUnescape, ih rest]
    · subst h7; rw [parseStrBody.eq_def]; simp [simpleUnescape, ih rest]
    · have h0 : hexVal '0' = some 0 := by decide
      have hhi : hexVal (hexDigit (c.toNat / 16)) = some (c.toNat / 16) :=
        hexVal_hexDigit _ (by omega)
      have hlo : hexVal (hexDigit (c.toNat % 16)) = some (c.toNat % 16) :=
        hexVal_hexDigit _ (by omega)
      have hvc : charFromNat (c.toNat / 16 * 16 + c.toNat % 16) = some c := by
        rw [show c.toNat / 16 * 16 + c.toNat % 16 = c.toNat from by omega]
        exact charFromNat_toNat c (by omega)
      rw [parseStrBody.eq_def]
      simp [h0, hhi, hlo, hvc, ih rest]
    · rw [List.singleton_append, parseStrBody.eq_def]
      simp [h1, h2, ih rest]
      omega

-- ------------------------------------------------------------------
-- C4: round-trip machinery — whitespace, heads, sizes.
-- ------------------------------------------------------------------

theorem skipWs_cons_nws (c : Char) (t : List Char) (h : isJWs c = false) :
    skipWs (c :: t) = c :: t := by
  simp [skipWs, List.dropWhile_cons, h]

theorem parseVal_cons_ws (fuel : Nat) (c : Char) (cs : List Char) (h : isJWs c = true) :
    parseVal fuel (c :: cs) = parseVal fuel cs := by
  cases fuel with
  | zero => rfl
  | succ f =>
    have hs : skipWs (c :: cs) = skipWs cs := by
      simp [skipWs, List.dropWhile_cons, h]
    simp only [parseVal, hs]

theorem parseElems_cons_ws (fuel : Nat) (c : Char) (cs : List Char) (h : isJWs c = true) :
    parseElems fuel (c :: cs) = parseElems fuel cs := by
  cases fuel with
  | zero => rfl
  | succ f =>
    simp only [parseElems, parseVal_cons_ws f c cs h]

theorem parseFields_cons_ws (fuel : Nat) (c : Char) (cs : List Char) (h : isJWs c = true) :
    parseFields fuel (c :: cs) = parseFields fuel cs := by
  cases fuel with
  | zero => rfl
  | succ f =>
    have hs : skipWs (c :: cs) = skipWs cs := by
      simp [skipWs, List.dropWhile_cons, h]
    simp only [parseFields, hs]

theorem isDigit_facts (c : Char) (h : c.isDigit = true) :
    isJWs c = false ∧ c ≠ ']' ∧ c ≠ '-' ∧ c ≠ lbrace ∧ c ≠ '[' ∧ c ≠ '"' ∧
      c ≠ 't' ∧ c ≠ 'f' ∧ c ≠ 'n' ∧ notBrace c = true := by
  have hne : ∀ d : Char, d.isDigit = false → c ≠ d := by
    intro d hd he
    subst he
    rw [h] at hd
    cases hd
  have h1 : c ≠ ' ' := hne _ (by decide)
  have h2 : c ≠ '\t' := hne _ (by decide)
  have h3 : c ≠ '\n' := hne _ (by decide)
  have h4 : c ≠ '\r' := hne _ (by decide)
  have h5 : c ≠ lbrace := hne _ (by decide)
  have h6 : c ≠ rbrace := hne _ (by decide)
  refine ⟨?_, hne _ (by decide), hne _ (by decide), h5, hne _ (by decide), hne _ (by decide),
    hne _ (by decide), hne _ (by decide), hne _ (by decide), ?_⟩
  · simp [isJWs, h1, h2, h3, h4]
  · simp [notBrace, h5, h6]

theorem jsize_pos (v : J) : 1 ≤ jsize v := by
  cases v <;> simp [jsize]

theorem strVal_head_spec (v : J) :
    ∃ c t, strVal v = c :: t ∧ isJWs c = false ∧ c ≠ ']' := by
  cases v with
  | null => exact ⟨'n', ['u', 'l', 'l'], rfl, by decide, by decide⟩
  | bool b =>
    cases b with
    | true => exact ⟨'t', ['r', 'u', 'e'], rfl, by decide, by decide⟩
    | false => exact ⟨'f', ['a', 'l', 's', 'e'], rfl, by decide, by decide⟩
  | num n =>
    rw [strVal, intStr]
    split
    · exact ⟨'-', _, rfl, by decide, by decide⟩
    · obtain ⟨d, ds', hds⟩ :=
        List.exists_cons_of_ne_nil (natDigits_ne_nil (n.toNat + 1) n.toNat (by omega))
      have hd : d.isDigit = true :=
        natDigits_digits (n.toNat + 1) n.toNat (by omega) d (by rw [hds]; simp)
      obtain ⟨hws, hrb, -⟩ := isDigit_facts d hd
      exact ⟨d, ds', hds, hws, hrb⟩
  | str s => exact ⟨'"', _, rfl, by decide, by decide⟩
  | arr xs => exact ⟨'[', _, rfl, by decide, by decide⟩
  | obj fs => exact ⟨lbrace, _, rfl, by decide, by decide⟩

mutual

theorem jsize_le (v : J) : jsize v ≤ 2 * (strVal v).length := by
  cases v with
  | null => decide
  | bool b => cases b <;> decide
  | num n =>
    rw [jsize, strVal, intStr]
    have h1 : ∀ m : Nat, 1 ≤ (natStr m).length := by
      intro m
      have := natDigits_ne_nil (m + 1) m (by omega)
      cases hh : natStr m with
      | nil => exact absurd hh this
      | cons a l => simp
    split
    · simp
      have := h1 (-n).toNat
      omega
    · have := h1 n.toNat
      omega
  | str s =>
    rw [jsize, strVal, strLit]
    simp
    omega
  | arr xs =>
    rw [jsize, strVal]
    have := jsizeL_le xs
    simp [List.length_append]
    omega
  | obj fs =>
    rw [jsize, strVal]
    have := jsizeF_le fs
    simp [List.length_append]
    omega

theorem jsizeL_le (xs : JList) : jsizeL xs ≤ 2 * (strElems xs).length + 1 := by
  cases xs with
  | nil => simp [jsizeL]
  | cons v tl =>
    rw [jsizeL, strElems]
    have h1 := jsize_le v
    have h2 := jsizeL_le tl
    have h3 : 1 ≤ jsize v := jsize_pos v
    cases tl with
    | nil =>
      simp [sepElems, strElems, jsizeL] at *
      omega
    | cons w tl2 =>
      simp [sepElems, List.length_append] at *
      omega

theorem jsizeF_le (fs : JFields) : jsizeF fs ≤ 2 * (strFields fs).length + 1 := by
  cases fs with
  | nil => simp [jsizeF]
  | cons k v tl =>
    rw [jsizeF, strFields]
    have h1 := jsize_le v
    have h2 := jsizeF_le tl
    cases tl with
    | nil =>
      simp [sepFields, strFields, jsizeF, strLit, List.length_append] at *
      omega
    | cons k2 w tl2 =>
      simp [sepFields, List.length_append] at *
      omega

end

-- ------------------------------------------------------------------
-- C4: the parser inverts the serializer.
-- ------------------------------------------------------------------

theorem restOk_cons (c : Char) (t : List Char) (h : c.isDigit = false) :
    restOk (c :: t) := h

theorem parseVal_parseNum (f : Nat) (c : Char) (cs : List Char)
    (hd : c = '-' ∨ c.isDigit = true) :
    parseVal (f + 1) (c :: cs) = parseNum (c :: cs) := by
  rcases hd with rfl | hd
  · simp [parseVal, skipWs, List.dropWhile_cons, isJWs, lbrace]
  · obtain ⟨hws, -, -, hlb, hlbk, hq, ht, hf, hn, -⟩ := isDigit_facts c hd
    simp only [parseVal, skipWs_cons_nws c cs hws]
    rw [if_neg hlb, if_neg hlbk, if_neg hq, if_neg ht, if_neg hf, if_neg hn,
      if_pos (by simp [hd])]

mutual

theorem parseValRT (v : J) : ∀ fuel rest, jsize v ≤ fuel → restOk rest →
    parseVal fuel (strVal v ++ rest) = some (v, rest) := by
  intro fuel rest hsz hrest
  obtain ⟨f, rfl⟩ : ∃ f, fuel = f + 1 := ⟨fuel - 1, by have := jsize_pos v; omega⟩
  cases v with
  | null =>
    show parseVal (f + 1) ('n' :: 'u' :: 'l' :: 'l' :: rest) = some (.null, rest)
    simp [parseVal, skipWs, List.dropWhile_cons, isJWs, lbrace]
  | bool b =>
    cases b with
    | true =>
      show parseVal (f + 1) ('t' :: 'r' :: 'u' :: 'e' :: rest) = some (.bool true, rest)
      simp [parseVal, skipWs, List.dropWhile_cons, isJWs, lbrace]
    | false =>
      show parseVal (f + 1) ('f' :: 'a' :: 'l' :: 's' :: 'e' :: rest)
        = some (.bool false, rest)
      simp [parseVal, skipWs, List.dropWhile_cons, isJWs, lbrace]
  | num n =>
    rw [strVal]
    by_cases hn : n < 0
    · rw [show intStr n = '-' :: natStr (-n).toNat from by rw [intStr, if_pos hn],
        List.cons_append]
      rw [parseVal_parseNum f '-' _ (Or.inl rfl), ← List.cons_append,
        show ('-' :: natStr (-n).toNat) = intStr n from by rw [intStr, if_pos hn]]
      exact parseNum_intStr n rest hrest
    · obtain ⟨d, ds', hds⟩ :=
        List.exists_cons_of_ne_nil (natDigits_ne_nil (n.toNat + 1) n.toNat (by omega))
      have hd : d.isDigit = true :=
        natDigits_digits (n.toNat + 1) n.toNat (by omega) d (by rw [hds]; simp)
      rw [show intStr n = natStr n.toNat from by rw [intStr, if_neg hn],
        show natStr n.toNat = d :: ds' from hds, List.cons_append]
      rw [parseVal_parseNum f d _ (Or.inr hd), ← List.cons_append,
        show (d :: ds') = natStr n.toNat from hds.symm,
        show natStr n.toNat = intStr n from by rw [intStr, if_neg hn]]
      exact parseNum_intStr n rest hrest
  | str s =>
    rw [strVal, strLit]
    simp only [List.cons_append, List.append_assoc, List.singleton_append, List.nil_append]
    simp only [parseVal, skipWs_cons_nws '"' _ (by decide)]
    simp [parseStrBody_escape s rest, lbrace, rbrace]
  | arr xs =>
    cases xs with
    | nil =>
      show parseVal (f + 1) ('[' :: ']' :: rest) = some (.arr .nil, rest)
      simp [parseVal, skipWs, List.dropWhile_cons, isJWs, lbrace]
    | cons x tl =>
      rw [strVal]
      simp only [List.cons_append, List.append_assoc, List.singleton_append, List.nil_append]
      obtain ⟨c, t, hhead, hws, hrb⟩ := strVal_head_spec x
      have hse : strElems (.cons x tl) ++ ']' :: rest
          = c :: (t ++ (sepElems tl ++ (strElems tl ++ ']' :: rest))) := by
        rw [strElems, hhead]
        simp [List.append_assoc]
      simp only [parseVal, skipWs_cons_nws '[' _ (by decide), if_true]
      rw [hse]
      simp only [skipWs_cons_nws c _ hws]
      rw [if_neg hrb, ← hse]
      rw [jsize] at hsz
      exact parseElemsRT (.cons x tl) f rest (by simp) (by omega)
  | obj fs =>
    cases fs with
    | nil =>
      show parseVal (f + 1) (lbrace :: rbrace :: rest) = some (.obj .nil, rest)
      simp [parseVal, skipWs, List.dropWhile_cons, isJWs, lbrace, rbrace]
    | cons k v tl =>
      rw [strVal]
      simp only [List.cons_append, List.append_assoc, List.singleton_append, List.nil_append]
      have hse : strFields (.cons k v tl) ++ rbrace :: rest
          = '"' :: (escapeStr k ++ '"' ::
              (':' :: ' ' :: (strVal v ++ (sepFields tl ++ (strFields tl ++ rbrace :: rest))))) := by
        rw [strFields, strLit]
        simp [List.append_assoc]
      simp only [parseVal, skipWs_cons_nws lbrace _ (by decide), if_true]
      rw [hse]
      simp only [skipWs_cons_nws '"' _ (by decide)]
      rw [if_neg (by decide : ¬('"' : Char) = rbrace), ← hse]
      rw [jsize] at hsz
      exact parseFieldsRT (.cons k v tl) f rest (by simp) (by omega)

theorem parseElemsRT (xs : JList) : ∀ fuel rest, xs ≠ .nil → jsizeL xs ≤ fuel →
    parseElems fuel (strElems xs ++ ']' :: rest) = some (.arr xs, rest) := by
  intro fuel rest hne hsz
  cases xs with
  | nil => exact absurd rfl hne
  | cons x tl =>
    rw [jsizeL] at hsz
    obtain ⟨f, rfl⟩ : ∃ f, fuel = f + 1 := ⟨fuel - 1, by omega⟩
    rw [strElems]
    cases tl with
    | nil =>
      rw [sepElems, strElems]
      simp only [List.append_nil]
      simp only [parseElems]
      rw [parseValRT x f (']' :: rest) (by omega) (restOk_cons _ _ (by decide))]
      simp [skipWs_cons_nws, isJWs]
    | cons y tl2 =>
      rw [sepElems]
      simp only [List.cons_append, List.append_assoc, List.singleton_append,
        List.nil_append]
      simp only [parseElems]
      rw [parseValRT x f _ (by omega) (restOk_cons _ _ (by decide))]
      simp [skipWs_cons_nws, isJWs, parseElems_cons_ws,
        parseElemsRT (.cons y tl2) f rest (by simp) (by rw [jsizeL] at hsz ⊢; omega)]

theorem parseFieldsRT (fs : JFields) : ∀ fuel rest, fs ≠ .nil → jsizeF fs ≤ fuel →
    parseFields fuel (strFields fs ++ rbrace :: rest) = some (.obj fs, rest) := by
  intro fuel rest hne hsz
  cases fs with
  | nil => exact absurd rfl hne
  | cons k v tl =>
    rw [jsizeF] at hsz
    obtain ⟨f, rfl⟩ : ∃ f, fuel = f + 1 := ⟨fuel - 1, by omega⟩
    rw [strFields, strLit]
    cases tl with
    | nil =>
      rw [sepFields, strFields]
      simp only [List.append_nil, List.cons_append, List.append_assoc,
        List.singleton_append]
      simp only [parseFields, skipWs_cons_nws '"' _ (by decide)]
      simp [parseStrBody_escape k, isJWs, skipWs_cons_nws, parseVal_cons_ws,
        show parseVal f (strVal v ++ '\x7d' :: rest) = some (v, '\x7d' :: rest) from
          parseValRT v f _ (by omega) (restOk_cons _ _ (by decide)),
        lbrace, rbrace]
    | cons k2 v2 tl2 =>
      rw [sepFields]
      simp only [List.cons_append, List.append_assoc, List.singleton_append,
        List.nil_append]
      simp only [parseFields, skipWs_cons_nws '"' _ (by decide)]
      simp [parseStrBody_escape k, isJWs, skipWs_cons_nws, parseVal_cons_ws,
        parseFields_cons_ws,
        show parseVal f
              (strVal v ++ ',' :: ' ' :: (strFields (.cons k2 v2 tl2) ++ '\x7d' :: rest))
            = some (v, ',' :: ' ' :: (strFields (.cons k2 v2 tl2) ++ '\x7d' :: rest)) from
          parseValRT v f _ (by omega) (restOk_cons _ _ (by decide)),
        show parseFields f (strFields (.cons k2 v2 tl2) ++ '\x7d' :: rest)
            = some (J.obj (.cons k2 v2 tl2), rest) from
          parseFieldsRT (.cons k2 v2 tl2) f rest (by simp) (by rw [jsizeF] at hsz ⊢; omega),
        lbrace, rbrace]

end

theorem parseJson_strVal (v : J) : parseJson (strVal v) = some v := by
  unfold parseJson
  have h := parseValRT v (2 * (strVal v).length + 2) [] (by have := jsize_le v; omega) trivial
  rw [List.append_nil] at h
  rw [h]
  simp [skipWs]

-- ------------------------------------------------------------------
-- C4: the brace scan passes over brace-free serialized values.
-- ------------------------------------------------------------------

theorem braceDelta_notBrace (c : Char) (h : notBrace c = true) : braceDelta c = 0 := by
  simp only [notBrace, Bool.not_eq_true', Bool.or_eq_false_iff, beq_eq_false_iff_ne] at h
  simp [braceDelta, h.1, h.2]

theorem scanPass_nil (d : Int) : ScanPass [] d := by
  intro rest
  simp only [List.nil_append, List.length_nil]
  cases scanBalanced rest d <;> simp

theorem scanPass_nb (cs : List Char) (h : ∀ c ∈ cs, notBrace c = true) (d : Int)
    (hd : d ≠ 0) : ScanPass cs d := by
  induction cs with
  | nil => exact scanPass_nil d
  | cons c t ih =>
    intro rest
    have hc := braceDelta_notBrace c (h c (by simp))
    rw [List.cons_append, scanBalanced]
    simp only [hc, add_zero, if_neg hd]
    rw [ih (fun c hc => h c (by simp [hc])) rest]
    cases scanBalanced rest d <;> simp
    omega

theorem scanPass_single (c : Char) (hc : braceDelta c = 0) (d : Int) (hd : d ≠ 0) :
    ScanPass [c] d := by
  intro rest
  rw [List.singleton_append, scanBalanced]
  simp only [hc, add_zero, if_neg hd]
  cases scanBalanced rest d <;> simp

theorem scanPass_append (a b : List Char) (d : Int) (ha : ScanPass a d)
    (hb : ScanPass b d) : ScanPass (a ++ b) d := by
  intro rest
  rw [List.append_assoc, ha (b ++ rest), hb rest]
  cases scanBalanced rest d <;> simp
  omega

theorem hexDigit_notBrace (d : Nat) (h : d < 16) : notBrace (hexDigit d) = true := by
  interval_cases d <;> decide

theorem escapeChar_notBrace (c : Char) (h : notBrace c = true) :
    ∀ c' ∈ escapeChar c, notBrace c' = true := by
  intro c' hc'
  unfold escapeChar at hc'
  split_ifs at hc' with h1 h2 h3 h4 h5 h6 h7 h8
  · simp at hc'; rcases hc' with rfl | rfl <;> decide
  · simp at hc'; rcases hc' with rfl | rfl <;> decide
  · simp at hc'; rcases hc' with rfl | rfl <;> decide
  · simp at hc'; rcases hc' with rfl | rfl <;> decide
  · simp at hc'; rcases hc' with rfl | rfl <;> decide
  · simp at hc'; rcases hc' with rfl | rfl <;> decide
  · simp at hc'; rcases hc' with rfl | rfl <;> decide
  · simp at hc'
    rcases hc' with rfl | rfl | rfl | rfl | rfl
    · decide
    · decide
    · decide
    · exact hexDigit_notBrace (c.toNat / 16) (by omega)
    · exact hexDigit_notBrace (c.toNat % 16) (by omega)
  · simp at hc'; subst hc'; exact h

theorem escapeStr_notBrace (s : List Char) (h : s.all notBrace = true) :
    ∀ c' ∈ escapeStr s, notBrace c' = true := by
  induction s with
  | nil => simp [escapeStr]
  | cons c cs ih =>
    simp only [List.all_cons, Bool.and_eq_true] at h
    intro c' hc'
    rw [escapeStr] at hc'
    rcases List.mem_append.mp hc' with h1 | h2
    · exact escapeChar_notBrace c h.1 c' h1
    · exact ih h.2 c' h2

theorem strLit_notBrace (s : List Char) (h : s.all notBrace = true) :
    ∀ c' ∈ strLit s, notBrace c' = true := by
  intro c' hc'
  rw [strLit] at hc'
  rcases List.mem_cons.mp hc' with rfl | h2
  · decide
  · rcases List.mem_append.mp h2 with h3 | h4
    · exact escapeStr_notBrace s h c' h3
    · rw [List.mem_singleton] at h4
      subst h4
      decide

theorem intStr_notBrace (n : Int) : ∀ c ∈ intStr n, notBrace c = true := by
  intro c hc
  rw [intStr] at hc
  split at hc
  · rcases List.mem_cons.mp hc with rfl | h1
    · decide
    · obtain ⟨-, -, -, -, -, -, -, -, -, hnb⟩ :=
        isDigit_facts c (natDigits_digits _ _ (by omega) c h1)
      exact hnb
  · obtain ⟨-, -, -, -, -, -, -, -, -, hnb⟩ :=
      isDigit_facts c (natDigits_digits _ _ (by omega) c hc)
    exact hnb

mutual

theorem scanJ (v : J) (hb : bfJ v = true) : ∀ d : Int, 0 < d → ScanPass (strVal v) d := by
  intro d hd
  have hdne : d ≠ 0 := by omega
  cases v with
  | null => exact scanPass_nb _ (by decide) d hdne
  | bool b => cases b <;> exact scanPass_nb _ (by decide) d hdne
  | num n => exact scanPass_nb _ (intStr_notBrace n) d hdne
  | str s =>
    rw [bfJ] at hb
    exact scanPass_nb _ (strLit_notBrace s hb) d hdne
  | arr xs =>
    rw [bfJ] at hb
    have h1 : ScanPass ['['] d := scanPass_single '[' (by decide) d hdne
    have h2 : ScanPass [']'] d := scanPass_single ']' (by decide) d hdne
    have h3 := scanL xs hb d hd
    have h4 := scanPass_append _ _ _ h1 (scanPass_append _ _ _ h3 h2)
    have he : ['['] ++ (strElems xs ++ [']']) = strVal (J.arr xs) := by
      rw [strVal]; simp
    rwa [he] at h4
  | obj fs =>
    rw [bfJ] at hb
    intro rest
    have hlb : braceDelta lbrace = (1 : Int) := by decide
    have hrb : braceDelta rbrace = (-1 : Int) := by decide
    rw [show strVal (J.obj fs) ++ rest = lbrace :: (strFields fs ++ (rbrace :: rest)) from by
      rw [strVal]; simp]
    rw [scanBalanced]
    simp only [hlb]
    rw [if_neg (by omega : ¬(d + 1 = 0))]
    rw [scanF fs hb (d + 1) (by omega) (rbrace :: rest)]
    rw [scanBalanced]
    simp only [hrb]
    rw [if_neg (by omega : ¬(d + 1 + -1 = 0))]
    rw [show d + 1 + -1 = d from by omega]
    cases scanBalanced rest d <;> simp [strVal]
    omega

theorem scanL (xs : JList) (hb : bfL xs = true) : ∀ d : Int, 0 < d →
    ScanPass (strElems xs) d := by
  intro d hd
  cases xs with
  | nil =>
    rw [strElems]
    exact scanPass_nil d
  | cons x tl =>
    rw [bfL, Bool.and_eq_true] at hb
    have hsep : ScanPass (sepElems tl) d := by
      cases tl with
      | nil => exact scanPass_nil d
      | cons y tl2 =>
        exact scanPass_nb (sepElems (JList.cons y tl2))
          (show ∀ c ∈ ([',', ' '] : List Char), notBrace c = true from by decide) d (by omega)
    rw [strElems]
    exact scanPass_append _ _ _ (scanPass_append _ _ _ (scanJ x hb.1 d hd) hsep)
      (scanL tl hb.2 d hd)

theorem scanF (fs : JFields) (hb : bfF fs = true) : ∀ d : Int, 0 < d →
    ScanPass (strFields fs) d := by
  intro d hd
  cases fs with
  | nil =>
    rw [strFields]
    exact scanPass_nil d
  | cons k v tl =>
    rw [bfF, Bool.and_eq_true, Bool.and_eq_true] at hb
    have hsep : ScanPass (sepFields tl) d := by
      cases tl with
      | nil => exact scanPass_nil d
      | cons k2 v2 tl2 =>
        exact scanPass_nb (sepFields (JFields.cons k2 v2 tl2))
          (show ∀ c ∈ ([',', ' '] : List Char), notBrace c = true from by decide) d (by omega)
    have hk := scanPass_nb _ (strLit_notBrace k hb.1.1) d (by omega)
    have hcs : ScanPass (':' :: ' ' :: strVal v) d := by
      have := scanPass_append _ _ _ (scanPass_nb [':', ' '] (by decide) d (by omega))
        (scanJ v hb.1.2 d hd)
      simpa using this
    have h4 := scanPass_append _ _ _
      (scanPass_append _ _ _ (scanPass_append _ _ _ hk hcs) hsep) (scanF tl hb.2 d hd)
    rw [strFields]
    exact h4

end

theorem firstIdx_strVal_obj (fs : JFields) :
    firstIdx (fun c => c = lbrace) (strVal (J.obj fs)) = some 0 := by
  rw [strVal, List.cons_append, firstIdx]
  simp

theorem scanBalanced_strVal_obj (fs : JFields) (hb : bfF fs = true) :
    scanBalanced (strVal (J.obj fs)) 0 = some (strVal (J.obj fs)).length := by
  have hlb : braceDelta lbrace = (1 : Int) := by decide
  have hrb : braceDelta rbrace = (-1 : Int) := by decide
  rw [show strVal (J.obj fs) = lbrace :: (strFields fs ++ [rbrace]) from by rw [strVal]; simp]
  rw [scanBalanced]
  simp only [hlb]
  rw [if_neg (by omega : ¬((0 : Int) + 1 = 0))]
  rw [scanF fs hb (0 + 1) (by omega) [rbrace]]
  rw [scanBalanced]
  simp only [hrb]
  rw [if_pos (by omega : (0 : Int) + 1 + -1 = 0)]
  simp [List.length_append]
  omega

/-- C4 (counterexample): the round trip fails on JSON-representable
values in general. For the string value "hi", the serialization
contains no left brace, so the extractor returns the raw fallback
object rather than the value itself; and for an object whose string
content contains a right brace, the scan ends the candidate inside the
string literal, the candidate fails to parse, and the raw fallback is
returned. -/
theorem c4_counterexample :
    parse_json_from_llm (jsonStringify (J.str ['h', 'i'])).data
        = rawObj (strVal (J.str ['h', 'i'])) ∧
    parse_json_from_llm (jsonStringify (J.str ['h', 'i'])).data ≠ J.str ['h', 'i'] ∧
    parse_json_from_llm (jsonStringify (J.obj (.cons ['k'] (J.str [rbrace]) .nil))).data
        ≠ J.obj (.cons ['k'] (J.str [rbrace]) .nil) :=
  ⟨by decide, by decide, by decide⟩

/-- C4 (amended): the round trip `extractJson (jsonStringify X) = X`
holds for every object value X none of whose string literals (keys or
string contents, at any depth) contains a brace character: the
serialization then starts with its only depth-zero left brace, the
brace scan ends exactly at the final right brace, and the candidate —
the whole serialization — parses back to X. -/
theorem c4_roundtrip_object (fs : JFields) (h : bfF fs = true) :
    parse_json_from_llm (jsonStringify (J.obj fs)).data = J.obj fs := by
  show parse_json_from_llm (strVal (J.obj fs)) = J.obj fs
  rw [parse_json_from_llm]
  rw [firstIdx_strVal_obj fs]
  simp only [List.drop_zero]
  rw [scanBalanced_strVal_obj fs h]
  simp only [List.take_length]
  rw [parseJson_strVal (J.obj fs)]

/-- C4 (witness): the amended round trip evaluated on a concrete
two-member object with a nested array, negative number, booleans, a
nested object and an escaped string. -/
theorem c4_roundtrip_object_witness :
    bfF c4fs = true ∧ parse_json_from_llm (jsonStringify (J.obj c4fs)).data = J.obj c4fs :=
  ⟨by decide, c4_roundtrip_object c4fs (by decide)⟩
